import Mathlib

/-!
# Verification of the Simplex-method implementation

Shallow embedding, in Lean 4, of the tableau-based Simplex solver found in
`simplex.py` and of its instrumented twin `simplex_with_counts.py`.

Modelling conventions:
* Python lists of numbers become `List ℚ`; the tableau is a `List (List ℚ)`.
* In-place mutation is rendered as explicit state passing: every Python loop
  that mutates a list becomes a `List.foldl` over `List.range`, and the value
  of a mutated caller argument after a call is returned explicitly where a
  claim depends on it.
* Python indexing `l[i]` is `List.getD l i 0` (theorems carry the bounds under
  which the two agree); `l[-1]` is `getD (length - 1)`; `l[:-2]` is
  `dropLast.dropLast`; `constraint[:-m]` (only evaluated when `0 < m`) is
  `take (length - m)`.
* `float('inf')` in the ratio test becomes `Option ℚ` with `none` standing for
  infinity; Python's lexicographic comparison of `(quotient, index)` tuples is
  transcribed as an explicit boolean comparison `pairLt`.
* The `while` convergence loop of the instrumented solver is modelled with
  explicit fuel; a `none` result means the loop has not terminated within the
  given fuel.
* The loop body of the uninstrumented `simplex` refers to the undefined name
  `plot_for_gif` (lines 99-100 of `simplex.py`; no module in the repository
  defines that name), so entering the loop raises `NameError` in Python.  This
  is modelled by `simplex` returning an explicit error value as soon as the
  loop guard holds.
-/

namespace SimplexPy

/-- Update one row of the tableau in place: `t[i] := g t[i]`.  A no-op when
`i` is out of range, matching `List.set`. -/
def updRow (t : List (List ℚ)) (i : ℕ) (g : List ℚ → List ℚ) : List (List ℚ) :=
  t.set i (g (t.getD i []))

/-- One step of the guarded row loop below: visit position `j` of `r`. -/
def rowStep (P : ℕ → ℚ → Bool) (F : ℕ → ℚ → ℚ) (r : List ℚ) (j : ℕ) : List ℚ :=
  if P j (r.getD j 0) then r.set j (F j (r.getD j 0)) else r

/-- A guarded in-place loop over the cells of one row:
`for j in range(L): if P j row[j]: row[j] = F j row[j]`. -/
def rowFoldG (L : ℕ) (P : ℕ → ℚ → Bool) (F : ℕ → ℚ → ℚ) (row : List ℚ) : List ℚ :=
  (List.range L).foldl (rowStep P F) row

theorem getD_set (l : List ℚ) (i j : ℕ) (v : ℚ) :
    (l.set i v).getD j 0 = if i = j ∧ i < l.length then v else l.getD j 0 := by
  simp only [List.getD_eq_getElem?_getD, List.getElem?_set]
  by_cases h : i = j
  · subst h
    by_cases h2 : i < l.length
    · simp [h2]
    · rw [if_pos rfl, if_neg h2, if_neg (by tauto),
        List.getElem?_eq_none (by omega)]
  · simp [h]

theorem getD_updRow (t : List (List ℚ)) (i q : ℕ) (g : List ℚ → List ℚ) :
    (updRow t i g).getD q [] =
      if i = q ∧ i < t.length then g (t.getD i []) else t.getD q [] := by
  simp only [updRow, List.getD_eq_getElem?_getD, List.getElem?_set]
  by_cases h : i = q
  · subst h
    by_cases h2 : i < t.length
    · simp [h2]
    · rw [if_pos rfl, if_neg h2, if_neg (by tauto),
        List.getElem?_eq_none (by omega)]
  · simp [h]

@[simp] theorem length_updRow (t : List (List ℚ)) (i : ℕ) (g : List ℚ → List ℚ) :
    (updRow t i g).length = t.length := by
  simp [updRow]

@[simp] theorem length_rowStep (P : ℕ → ℚ → Bool) (F : ℕ → ℚ → ℚ) (r : List ℚ)
    (j : ℕ) : (rowStep P F r j).length = r.length := by
  rw [rowStep]
  split <;> simp

theorem rowFoldG_succ (n : ℕ) (P : ℕ → ℚ → Bool) (F : ℕ → ℚ → ℚ) (row : List ℚ) :
    rowFoldG (n + 1) P F row = rowStep P F (rowFoldG n P F row) n := by
  rw [rowFoldG, rowFoldG, List.range_succ, List.foldl_append, List.foldl_cons,
    List.foldl_nil]

theorem length_rowFoldG (L : ℕ) (P : ℕ → ℚ → Bool) (F : ℕ → ℚ → ℚ) (row : List ℚ) :
    (rowFoldG L P F row).length = row.length := by
  induction L with
  | zero => rfl
  | succ n ih => rw [rowFoldG_succ, length_rowStep, ih]

/-- Cell-level description of `rowFoldG`: position `j` gets rewritten exactly
when `j < L`, `j` is in range and the guard holds on the original value;
positions are each visited once, so the value read is always the original. -/
theorem getD_rowFoldG (L : ℕ) (P : ℕ → ℚ → Bool) (F : ℕ → ℚ → ℚ) (row : List ℚ) :
    ∀ j, (rowFoldG L P F row).getD j 0 =
      if j < L ∧ j < row.length ∧ P j (row.getD j 0) then
        F j (row.getD j 0)
      else row.getD j 0 := by
  induction L with
  | zero => intro j; simp [rowFoldG]
  | succ n ih =>
    intro j
    have hlen : (rowFoldG n P F row).length = row.length := length_rowFoldG ..
    have hn : (rowFoldG n P F row).getD n 0 = row.getD n 0 := by
      rw [ih n]; simp
    rw [rowFoldG_succ, rowStep, hn]
    by_cases hg : P n (row.getD n 0)
    · rw [if_pos hg, getD_set, hlen, ih j]
      by_cases h1 : j = n
      · subst h1
        by_cases h2 : j < row.length
        · rw [if_pos ⟨rfl, h2⟩, if_pos ⟨Nat.lt_succ_self j, h2, hg⟩]
        · rw [if_neg (fun hc => h2 hc.2),
            if_neg (fun hc => absurd hc.1 (Nat.lt_irrefl j)),
            if_neg (fun hc => h2 hc.2.1)]
      · rw [if_neg (fun hc => h1 hc.1.symm)]
        by_cases hj : j < n
        · by_cases h2 : j < row.length ∧ P j (row.getD j 0)
          · rw [if_pos ⟨hj, h2.1, h2.2⟩, if_pos ⟨Nat.lt_succ_of_lt hj, h2.1, h2.2⟩]
          · rw [if_neg (fun hc => h2 ⟨hc.2.1, hc.2.2⟩),
              if_neg (fun hc => h2 ⟨hc.2.1, hc.2.2⟩)]
        · have hj2 : ¬ j < n + 1 := by omega
          rw [if_neg (fun hc => hj hc.1), if_neg (fun hc => hj2 hc.1)]
    · rw [if_neg hg, ih j]
      by_cases h1 : j = n
      · subst h1
        rw [if_neg (fun hc => absurd hc.1 (Nat.lt_irrefl j)),
          if_neg (fun hc => hg hc.2.2)]
      · by_cases hj : j < n
        · by_cases h2 : j < row.length ∧ P j (row.getD j 0)
          · rw [if_pos ⟨hj, h2.1, h2.2⟩, if_pos ⟨Nat.lt_succ_of_lt hj, h2.1, h2.2⟩]
          · rw [if_neg (fun hc => h2 ⟨hc.2.1, hc.2.2⟩),
              if_neg (fun hc => h2 ⟨hc.2.1, hc.2.2⟩)]
        · have hj2 : ¬ j < n + 1 := by omega
          rw [if_neg (fun hc => hj hc.1), if_neg (fun hc => hj2 hc.1)]

/-- Two lists of rationals agreeing in length and cell-wise (through `getD`)
are equal. -/
theorem list_eq_of_getD (l₁ l₂ : List ℚ) (hlen : l₁.length = l₂.length)
    (h : ∀ j, l₁.getD j 0 = l₂.getD j 0) : l₁ = l₂ := by
  apply List.ext_getElem?
  intro n
  by_cases hn : n < l₁.length
  · have hn2 : n < l₂.length := by omega
    have := h n
    simp only [List.getD_eq_getElem?_getD, List.getElem?_eq_getElem hn,
      List.getElem?_eq_getElem hn2, Option.getD_some] at this
    simp [List.getElem?_eq_getElem hn, List.getElem?_eq_getElem hn2, this]
  · have hn2 : ¬ n < l₂.length := by omega
    simp [List.getElem?_eq_none (by omega : l₁.length ≤ n),
      List.getElem?_eq_none (by omega : l₂.length ≤ n)]

/-- Two tableaus agreeing in row count and row-wise (through `getD`) are
equal. -/
theorem tableau_eq_of_getD (t₁ t₂ : List (List ℚ)) (hlen : t₁.length = t₂.length)
    (h : ∀ i, t₁.getD i [] = t₂.getD i []) : t₁ = t₂ := by
  apply List.ext_getElem?
  intro n
  by_cases hn : n < t₁.length
  · have hn2 : n < t₂.length := by omega
    have := h n
    simp only [List.getD_eq_getElem?_getD, List.getElem?_eq_getElem hn,
      List.getElem?_eq_getElem hn2, Option.getD_some] at this
    simp [List.getElem?_eq_getElem hn, List.getElem?_eq_getElem hn2, this]
  · have hn2 : ¬ n < t₂.length := by omega
    simp [List.getElem?_eq_none (by omega : t₁.length ≤ n),
      List.getElem?_eq_none (by omega : t₂.length ≤ n)]

/-- One comparison step of Python `min`: keep the accumulator unless the next
element is strictly smaller, so the earliest minimum wins. -/
def pyMinStep (acc y : ℚ) : ℚ := if y < acc then y else acc

/-- Python `min` over a list of numbers.  Total here with junk value `0` for
the empty list (where Python raises `ValueError`); the call sites are guarded
so that the list is never empty. -/
def pyListMin : List ℚ → ℚ
  | [] => 0
  | x :: xs => xs.foldl pyMinStep x

theorem pyMinFold_spec (xs : List ℚ) : ∀ a : ℚ,
    (xs.foldl pyMinStep a = a ∨ xs.foldl pyMinStep a ∈ xs) ∧
    xs.foldl pyMinStep a ≤ a ∧ ∀ x ∈ xs, xs.foldl pyMinStep a ≤ x := by
  induction xs with
  | nil => intro a; simp
  | cons y ys ih =>
    intro a
    simp only [List.foldl_cons]
    rcases ih (pyMinStep a y) with ⟨m1, m2, m3⟩
    have hstep_le_a : pyMinStep a y ≤ a := by
      rw [pyMinStep]
      split
      · exact le_of_lt (by assumption)
      · exact le_refl a
    have hstep_le_y : pyMinStep a y ≤ y := by
      rw [pyMinStep]
      split
      · exact le_refl y
      · exact le_of_not_lt (by assumption)
    refine ⟨?_, le_trans m2 hstep_le_a, ?_⟩
    · rcases m1 with h | h
      · rw [h, pyMinStep]
        split
        · exact Or.inr (List.mem_cons_self ..)
        · exact Or.inl rfl
      · exact Or.inr (List.mem_cons_of_mem _ h)
    · intro x hx
      rcases List.mem_cons.mp hx with h | h
      · subst h
        exact le_trans m2 hstep_le_y
      · exact m3 x h

theorem pyListMin_mem (l : List ℚ) (h : l ≠ []) : pyListMin l ∈ l := by
  match l with
  | [] => exact absurd rfl h
  | x :: xs =>
    rw [pyListMin]
    rcases (pyMinFold_spec xs x).1 with h1 | h1
    · rw [h1]
      exact List.mem_cons_self ..
    · exact List.mem_cons_of_mem _ h1

theorem pyListMin_le (l : List ℚ) (x : ℚ) (hx : x ∈ l) : pyListMin l ≤ x := by
  match l with
  | [] => exact absurd hx (by simp)
  | y :: ys =>
    rw [pyListMin]
    rcases List.mem_cons.mp hx with h | h
    · subst h
      exact (pyMinFold_spec ys x).2.1
    · exact (pyMinFold_spec ys y).2.2 x h

/-- Python `list.index`: position of the first occurrence.  Total here (the
call sites guarantee membership, where Python would raise `ValueError`). -/
def pyIndexOf (x : ℚ) : List ℚ → ℕ
  | [] => 0
  | y :: ys => if y = x then 0 else pyIndexOf x ys + 1

theorem pyIndexOf_spec (x : ℚ) (l : List ℚ) (h : x ∈ l) :
    pyIndexOf x l < l.length ∧ l.getD (pyIndexOf x l) 0 = x ∧
      ∀ i < pyIndexOf x l, l.getD i 0 ≠ x := by
  induction l with
  | nil => simp at h
  | cons y ys ih =>
    rw [pyIndexOf]
    by_cases hy : y = x
    · rw [if_pos hy]
      exact ⟨by simp, by simpa using hy, by omega⟩
    · rw [if_neg hy]
      have hmem : x ∈ ys := by
        rcases List.mem_cons.mp h with h1 | h1
        · exact absurd h1.symm hy
        · exact h1
      rcases ih hmem with ⟨i1, i2, i3⟩
      refine ⟨by simpa using i1, by simpa using i2, ?_⟩
      intro i hi
      match i with
      | 0 => simpa using hy
      | i + 1 => simpa using i3 i (by omega)

/-- Comparison `x < y` for ratio-test quotients, where `none` plays the role
of Python's `float('inf')`. -/
def qLt : Option ℚ → Option ℚ → Bool
  | some x, some y => decide (x < y)
  | some _, none => true
  | none, _ => false

/-- Python's lexicographic `<` on `(quotient, row-index)` tuples. -/
def pairLt (p q : Option ℚ × ℕ) : Bool :=
  qLt p.1 q.1 || (decide (p.1 = q.1) && decide (p.2 < q.2))

theorem qLt_irrefl (a : Option ℚ) : qLt a a = false := by
  cases a <;> simp [qLt]

theorem qLt_trans (a b c : Option ℚ) (h1 : qLt a b = true) (h2 : qLt b c = true) :
    qLt a c = true := by
  match a, b, c with
  | some x, some y, some z =>
    simp only [qLt, decide_eq_true_eq] at *
    exact lt_trans h1 h2
  | some _, some _, none => rfl
  | some _, none, _ => simp [qLt] at h2
  | none, _, _ => simp [qLt] at h1

theorem qLt_of_ne_of_not_lt (a b : Option ℚ) (h1 : qLt a b = false) (h2 : a ≠ b) :
    qLt b a = true := by
  match a, b with
  | some x, some y =>
    simp only [qLt, decide_eq_true_eq, decide_eq_false_iff_not] at *
    rcases lt_trichotomy x y with h | h | h
    · exact absurd h h1
    · exact absurd (congrArg some h) h2
    · exact h
  | some _, none => simp [qLt] at h1
  | none, some _ => rfl
  | none, none => exact absurd rfl h2

theorem pairLt_iff (p q : Option ℚ × ℕ) :
    pairLt p q = true ↔ (qLt p.1 q.1 = true ∨ (p.1 = q.1 ∧ p.2 < q.2)) := by
  simp [pairLt]

theorem pairLt_irrefl (p : Option ℚ × ℕ) : pairLt p p = false := by
  simp [pairLt, qLt_irrefl]

theorem pairLt_trans (p q r : Option ℚ × ℕ) (h1 : pairLt p q = true)
    (h2 : pairLt q r = true) : pairLt p r = true := by
  rw [pairLt_iff] at *
  rcases h1 with h1 | ⟨h1e, h1n⟩
  · rcases h2 with h2 | ⟨h2e, h2n⟩
    · exact Or.inl (qLt_trans _ _ _ h1 h2)
    · exact Or.inl (h2e ▸ h1)
  · rcases h2 with h2 | ⟨h2e, h2n⟩
    · exact Or.inl (h1e ▸ h2)
    · exact Or.inr ⟨h1e.trans h2e, Nat.lt_trans h1n h2n⟩

theorem pairLt_asymm (p q : Option ℚ × ℕ) (h : pairLt p q = true) :
    pairLt q p = false := by
  by_contra hc
  have h2 : pairLt q p = true := by
    revert hc
    cases pairLt q p <;> simp
  have := pairLt_trans p q p h h2
  rw [pairLt_irrefl] at this
  exact Bool.false_ne_true this

theorem pairLt_of_ne_of_not_lt (p q : Option ℚ × ℕ) (h1 : pairLt p q = false)
    (h2 : p ≠ q) : pairLt q p = true := by
  rw [pairLt_iff]
  have h1' : ¬ (qLt p.1 q.1 = true ∨ (p.1 = q.1 ∧ p.2 < q.2)) := by
    rw [← pairLt_iff, h1]
    simp
  push_neg at h1'
  by_cases he : p.1 = q.1
  · have hn : p.2 ≠ q.2 := by
      intro hc
      exact h2 (Prod.ext he hc)
    have hlt := h1'.2 he
    exact Or.inr ⟨he.symm, by omega⟩
  · have hq : qLt p.1 q.1 = false := by
      have h3 := h1'.1
      revert h3
      cases qLt p.1 q.1 <;> simp
    exact Or.inl (qLt_of_ne_of_not_lt _ _ hq he)

/-- `p` is no larger than `q` in the lexicographic tuple order. -/
def PairLe (p q : Option ℚ × ℕ) : Prop := pairLt q p = false

theorem pairLe_refl (p : Option ℚ × ℕ) : PairLe p p := pairLt_irrefl p

theorem pairLe_trans (p q r : Option ℚ × ℕ) (h1 : PairLe p q) (h2 : PairLe q r) :
    PairLe p r := by
  rw [PairLe] at *
  by_contra hc
  have h3 : pairLt r p = true := by
    revert hc
    cases pairLt r p <;> simp
  by_cases heq : r = q
  · subst heq
    rw [h1] at h3
    exact Bool.false_ne_true h3
  · have h4 : pairLt q r = true := pairLt_of_ne_of_not_lt r q h2 heq
    have h5 := pairLt_trans q r p h4 h3
    rw [h1] at h5
    exact Bool.false_ne_true h5

/-- One comparison step of Python `min` over tuples. -/
def pyPairStep (acc p : Option ℚ × ℕ) : Option ℚ × ℕ := if pairLt p acc then p else acc

/-- Python `min` over the `(quotient, row-index)` tuples of the ratio test.
Junk value for the empty list (Python raises there). -/
def pyMinPair : List (Option ℚ × ℕ) → Option ℚ × ℕ
  | [] => (none, 0)
  | x :: xs => xs.foldl pyPairStep x

theorem pyPairFold_spec (xs : List (Option ℚ × ℕ)) : ∀ a,
    (xs.foldl pyPairStep a = a ∨ xs.foldl pyPairStep a ∈ xs) ∧
    PairLe (xs.foldl pyPairStep a) a ∧
    ∀ p ∈ xs, PairLe (xs.foldl pyPairStep a) p := by
  induction xs with
  | nil =>
    intro a
    simpa using pairLe_refl a
  | cons y ys ih =>
    intro a
    simp only [List.foldl_cons]
    rcases ih (pyPairStep a y) with ⟨m1, m2, m3⟩
    have hstep_le_a : PairLe (pyPairStep a y) a := by
      rw [pyPairStep]
      split
      · exact pairLt_asymm _ _ (by assumption)
      · exact pairLe_refl a
    have hstep_le_y : PairLe (pyPairStep a y) y := by
      rw [pyPairStep]
      split
      · exact pairLe_refl y
      · rw [PairLe]
        revert ‹¬ pairLt y a = true›
        cases pairLt y a <;> simp
    refine ⟨?_, pairLe_trans _ _ _ m2 hstep_le_a, ?_⟩
    · rcases m1 with h | h
      · rw [h, pyPairStep]
        split
        · exact Or.inr (List.mem_cons_self ..)
        · exact Or.inl rfl
      · exact Or.inr (List.mem_cons_of_mem _ h)
    · intro p hp
      rcases List.mem_cons.mp hp with h | h
      · subst h
        exact pairLe_trans _ _ _ m2 hstep_le_y
      · exact m3 p h

theorem pyMinPair_mem (l : List (Option ℚ × ℕ)) (h : l ≠ []) : pyMinPair l ∈ l := by
  match l with
  | [] => exact absurd rfl h
  | x :: xs =>
    rw [pyMinPair]
    rcases (pyPairFold_spec xs x).1 with h1 | h1
    · rw [h1]
      exact List.mem_cons_self ..
    · exact List.mem_cons_of_mem _ h1

theorem pyMinPair_le (l : List (Option ℚ × ℕ)) (p : Option ℚ × ℕ) (hp : p ∈ l) :
    PairLe (pyMinPair l) p := by
  match l with
  | [] => exact absurd hp (by simp)
  | y :: ys =>
    rw [pyMinPair]
    rcases List.mem_cons.mp hp with h | h
    · subst h
      exact (pyPairFold_spec ys p).2.1
    · exact (pyPairFold_spec ys y).2.2 p h

/-- A row-indexed loop `for i in range(M)` replacing each visited row by a
function of its old value only. -/
def rowLoopAll (M : ℕ) (G : ℕ → List ℚ → List ℚ) (t : List (List ℚ)) :
    List (List ℚ) :=
  (List.range M).foldl (fun s i => updRow s i (G i)) t

/-- A row-indexed loop `for i in range(M)` whose body skips row `r` and
replaces every other row `i` using its old value together with the (never
modified) row `r`. -/
def rowLoopExcept (M r : ℕ) (G : ℕ → List ℚ → List ℚ → List ℚ)
    (t : List (List ℚ)) : List (List ℚ) :=
  (List.range M).foldl
    (fun s i => if i = r then s else updRow s i (G i (s.getD r []))) t

theorem rowLoopAll_succ (n : ℕ) (G : ℕ → List ℚ → List ℚ) (t : List (List ℚ)) :
    rowLoopAll (n + 1) G t = updRow (rowLoopAll n G t) n (G n) := by
  rw [rowLoopAll, rowLoopAll, List.range_succ, List.foldl_append, List.foldl_cons,
    List.foldl_nil]

theorem rowLoopAll_length (M : ℕ) (G : ℕ → List ℚ → List ℚ) (t : List (List ℚ)) :
    (rowLoopAll M G t).length = t.length := by
  induction M with
  | zero => rfl
  | succ n ih => rw [rowLoopAll_succ, length_updRow, ih]

theorem rowLoopAll_getD (M : ℕ) (G : ℕ → List ℚ → List ℚ) (t : List (List ℚ)) :
    ∀ q, (rowLoopAll M G t).getD q [] =
      if q < M ∧ q < t.length then G q (t.getD q []) else t.getD q [] := by
  induction M with
  | zero => intro q; simp [rowLoopAll]
  | succ n ih =>
    intro q
    have hn : (rowLoopAll n G t).getD n [] = t.getD n [] := by
      rw [ih n]; simp
    rw [rowLoopAll_succ, getD_updRow, rowLoopAll_length, hn, ih q]
    by_cases hq : n = q
    · subst hq
      by_cases h2 : n < t.length
      · rw [if_pos ⟨rfl, h2⟩, if_pos ⟨Nat.lt_succ_self n, h2⟩]
      · rw [if_neg (fun hc => h2 hc.2), if_neg (fun hc => absurd hc.1 (Nat.lt_irrefl n)),
          if_neg (fun hc => h2 hc.2)]
    · rw [if_neg (fun hc => hq hc.1)]
      by_cases hj : q < n
      · by_cases h2 : q < t.length
        · rw [if_pos ⟨hj, h2⟩, if_pos ⟨Nat.lt_succ_of_lt hj, h2⟩]
        · rw [if_neg (fun hc => h2 hc.2), if_neg (fun hc => h2 hc.2)]
      · have h3 : ¬ q < n + 1 := by omega
        rw [if_neg (fun hc => hj hc.1), if_neg (fun hc => h3 hc.1)]

theorem rowLoopExcept_succ (n r : ℕ) (G : ℕ → List ℚ → List ℚ → List ℚ)
    (t : List (List ℚ)) :
    rowLoopExcept (n + 1) r G t =
      if n = r then rowLoopExcept n r G t
      else updRow (rowLoopExcept n r G t) n
        (G n ((rowLoopExcept n r G t).getD r [])) := by
  rw [rowLoopExcept, rowLoopExcept, List.range_succ, List.foldl_append,
    List.foldl_cons, List.foldl_nil]

theorem rowLoopExcept_length (M r : ℕ) (G : ℕ → List ℚ → List ℚ → List ℚ)
    (t : List (List ℚ)) : (rowLoopExcept M r G t).length = t.length := by
  induction M with
  | zero => rfl
  | succ n ih =>
    rw [rowLoopExcept_succ]
    split
    · exact ih
    · rw [length_updRow, ih]

theorem rowLoopExcept_getD (M r : ℕ) (G : ℕ → List ℚ → List ℚ → List ℚ)
    (t : List (List ℚ)) :
    ∀ q, (rowLoopExcept M r G t).getD q [] =
      if q ≠ r ∧ q < M ∧ q < t.length then G q (t.getD r []) (t.getD q [])
      else t.getD q [] := by
  induction M with
  | zero => intro q; simp [rowLoopExcept]
  | succ n ih =>
    intro q
    have hr : (rowLoopExcept n r G t).getD r [] = t.getD r [] := by
      rw [ih r]; simp
    rw [rowLoopExcept_succ]
    by_cases hnr : n = r
    · subst hnr
      rw [if_pos rfl, ih q]
      by_cases hc : q ≠ n ∧ q < n ∧ q < t.length
      · rw [if_pos hc, if_pos ⟨hc.1, Nat.lt_succ_of_lt hc.2.1, hc.2.2⟩]
      · rw [if_neg hc, if_neg]
        intro hc2
        obtain ⟨a2, b2, c2⟩ := hc2
        refine hc ⟨a2, ?_, c2⟩
        omega
    · have hn : (rowLoopExcept n r G t).getD n [] = t.getD n [] := by
        rw [ih n]; simp
      rw [if_neg hnr, getD_updRow, rowLoopExcept_length, hr, hn, ih q]
      by_cases hq : n = q
      · subst hq
        by_cases h2 : n < t.length
        · rw [if_pos ⟨rfl, h2⟩, if_pos ⟨hnr, Nat.lt_succ_self n, h2⟩]
        · rw [if_neg (fun hc => h2 hc.2),
            if_neg (fun hc => absurd hc.2.1 (Nat.lt_irrefl n)),
            if_neg (fun hc => h2 hc.2.2)]
      · rw [if_neg (fun hc => hq hc.1)]
        by_cases hj : q < n
        · by_cases hc : q ≠ r ∧ q < n ∧ q < t.length
          · rw [if_pos hc, if_pos ⟨hc.1, Nat.lt_succ_of_lt hj, hc.2.2⟩]
          · rw [if_neg hc, if_neg]
            intro hc2
            exact hc ⟨hc2.1, hj, hc2.2.2⟩
        · have h3 : ¬ q < n + 1 := by omega
          rw [if_neg (fun hc => hj hc.2.1), if_neg (fun hc => h3 hc.2.1)]

/-! ## The uninstrumented solver: `simplex.py` -/

/-- The bottom (objective) row of the tableau without its two final columns
(`Z` and `c`): Python `s_tableau[-1][:-2]`. -/
def bottomRow (t : List (List ℚ)) : List ℚ :=
  (t.getD (t.length - 1) []).dropLast.dropLast

/-- `find_pivot_column` (simplex.py lines 121-125):
`bottom_row.index(min(bottom_row))`. -/
def find_pivot_column (t : List (List ℚ)) : ℕ :=
  pyIndexOf (pyListMin (bottomRow t)) (bottomRow t)

/-- The quotient of one constraint row, as built at simplex.py lines 137-141
and simplex_with_counts.py lines 90-103: `(row[-1] / row[k], i)` when
`row[k] > 0`, infinite otherwise. -/
def quotEntry (t : List (List ℚ)) (k : ℕ) (i : ℕ) : Option ℚ × ℕ :=
  let row := t.getD i []
  if 0 < row.getD k 0 then
    (some (row.getD (row.length - 1) 0 / row.getD k 0), i)
  else (none, i)

/-- The `(quotient, row-index)` list built by
`calculate_quotients_and_find_pivot_row` (simplex.py lines 133-141): one entry
per constraint row (`s_tableau[:-1]`), with `none` standing for `float('inf')`
whenever the pivot-column entry is not strictly positive. -/
def quotientsList (t : List (List ℚ)) (k : ℕ) : List (Option ℚ × ℕ) :=
  (List.range (t.length - 1)).map (quotEntry t k)

/-- `calculate_quotients_and_find_pivot_row` (simplex.py lines 132-146):
the row index of the lexicographically smallest `(quotient, index)` tuple. -/
def calculate_quotients_and_find_pivot_row (t : List (List ℚ)) (k : ℕ) : ℕ :=
  (pyMinPair (quotientsList t k)).2

/-- `perform_pivoting` (simplex.py lines 152-168), the dense pivot.  The first
loop normalizes the pivot row (`for j in range(len(s_tableau[0]))`, dividing
by the pivot element read beforehand); the second loop eliminates the pivot
column from every other row (`for j in range(len(row))`), with the factor
`row[pivot_col_index]` read before the inner loop runs. -/
def perform_pivoting (t : List (List ℚ)) (r k : ℕ) : List (List ℚ) :=
  let p := (t.getD r []).getD k 0
  let t1 := updRow t r (rowFoldG (t.getD 0 []).length
    (fun _ _ => true) (fun _ x => x / p))
  rowLoopExcept t1.length r
    (fun _ pivotRow row =>
      rowFoldG row.length (fun _ _ => true)
        (fun j x => x - row.getD k 0 * pivotRow.getD j 0) row)
    t1

/-- The tableau operations of `perform_sparse_pivoting_w_counts`
(simplex_with_counts.py lines 149-182), the sparse pivot, without the
counters: normalization skips zero entries of the pivot row, elimination skips
rows whose pivot-column entry is zero and, inside a row, positions where the
normalized pivot row is zero; both inner loops run over
`range(len(s_tableau[0]))` and the factor is read before the inner loop. -/
def perform_sparse_pivoting (t : List (List ℚ)) (r k : ℕ) : List (List ℚ) :=
  let p := (t.getD r []).getD k 0
  let L := (t.getD 0 []).length
  let t1 := updRow t r (rowFoldG L (fun _ x => decide (x ≠ 0)) (fun _ x => x / p))
  rowLoopExcept t1.length r
    (fun _ pivotRow row =>
      if row.getD k 0 = 0 then row
      else
        rowFoldG L (fun j _ => decide (pivotRow.getD j 0 ≠ 0))
          (fun j x => x - row.getD k 0 * pivotRow.getD j 0) row)
    t1

/-- `construct_simplex_tableau` (simplex.py lines 172-196).  The argument `b`
is the constraint matrix after slack augmentation (the caller extends it
first); `constraint[:-num_of_slack_variables]` is `take (length - m)`.

This embedding is total where Python can raise `IndexError`: `c.getD i 0`
reads 0 where `c[i]` (line 184 of the source) raises for a bound vector
shorter than `b`, and an out-of-range `List.set` is a no-op where
`s_tableau[i][j] = coef` (line 194) raises once a constraint row is so long
that the coefficient fill writes past the row width.  It therefore agrees
with Python exactly on the index-safe envelope `b.length ≤ c.length` and
`row.length ≤ A.length + 2 * b.length + 2` for every `row ∈ b`; theorems
whose faithfulness depends on these error paths carry those bounds as
hypotheses. -/
def construct_simplex_tableau (A : List ℚ) (b : List (List ℚ)) (c : List ℚ) :
    List (List ℚ) :=
  let num_of_variables := A.length
  let num_of_slack_variables := b.length
  let num_of_columns := num_of_variables + num_of_slack_variables + 2
  let num_of_rows := b.length + 1
  let t0 := List.replicate num_of_rows (List.replicate num_of_columns (0 : ℚ))
  let t1 := rowLoopAll num_of_slack_variables
    (fun i row =>
      (row.set (num_of_variables + i) 1).set (num_of_columns - 1) (c.getD i 0))
    t0
  let t2 := updRow t1 (num_of_rows - 1)
    (fun row => rowFoldG num_of_variables (fun _ _ => true)
      (fun j _ => A.getD j 0) row)
  let t3 := updRow t2 (num_of_rows - 1) (fun row => row.set (num_of_columns - 2) 1)
  rowLoopAll num_of_slack_variables
    (fun i row =>
      let constraint := b.getD i []
      let coeffs := constraint.take (constraint.length - num_of_slack_variables)
      rowFoldG coeffs.length (fun _ _ => true) (fun j _ => coeffs.getD j 0) row)
    t3

/-- The slack-augmentation loop of `simplex` (simplex.py lines 62-63): each
constraint row `b[i]` is extended **in place** with the `i`-th row of an
`m × m` identity block. -/
def extendSlack (b : List (List ℚ)) : List (List ℚ) :=
  rowLoopAll b.length
    (fun i row =>
      row ++ (List.range b.length).map (fun j => if i = j then (1 : ℚ) else 0))
    b

/-- A Python runtime error surfaced by the embedded code. -/
inductive PyRunError where
  | nameError (name : String)
deriving DecidableEq

/-- `simplex` (simplex.py lines 34-115).  Setup: negate the objective
coefficients, extend `b` with the identity block, build the tableau.  The
convergence loop's first statement calls
`find_pivot_column(s_tableau, plot_for_gif)` with the undefined name
`plot_for_gif` (line 99), so the first iteration raises `NameError`; hence the
function returns its tableau exactly when the loop guard
`min(s_tableau[-1][:-2]) < 0` fails at once, and otherwise errors. -/
def simplex (A : List ℚ) (b : List (List ℚ)) (c : List ℚ) :
    Except PyRunError (List (List ℚ)) :=
  let A' := A.map (fun a => -a)
  let b' := extendSlack b
  let s_tableau := construct_simplex_tableau A' b' c
  if pyListMin (bottomRow s_tableau) < 0 then
    Except.error (PyRunError.nameError "plot_for_gif")
  else Except.ok s_tableau

/-- The values of the caller's three argument objects after `simplex` returns:
`A` is only rebound inside `simplex` (line 55 creates a new list), `c` is
never written, but each row of `b` has been extended in place with its slack
entries (lines 62-63). -/
def simplexCallerState (A : List ℚ) (b : List (List ℚ)) (c : List ℚ) :
    List ℚ × List (List ℚ) × List ℚ :=
  (A, extendSlack b, c)

/-! ## The instrumented solver: `simplex_with_counts.py`

The Python file keeps a dict with five counters and duplicates the tableau
operations of `simplex.py` verbatim, interleaving counter increments.  The
embedding shares the tableau operations with the uninstrumented definitions
above and threads a `Counts` record alongside; a counter increment that
Python performs once per loop iteration is accumulated as the per-loop total
(the number of iterations times the increment, or a filtered count when the
increment is conditional on a zero test). -/

/-- The five operation counters of `simplex_with_counts.py` (lines 17-23). -/
structure Counts where
  comparisons : ℕ
  assignments : ℕ
  arithmetic : ℕ
  accesses : ℕ
  func_calls : ℕ
deriving DecidableEq, Repr

def Counts.addComparisons (c : Counts) (n : ℕ) : Counts :=
  { c with comparisons := c.comparisons + n }

def Counts.addAssignments (c : Counts) (n : ℕ) : Counts :=
  { c with assignments := c.assignments + n }

def Counts.addArithmetic (c : Counts) (n : ℕ) : Counts :=
  { c with arithmetic := c.arithmetic + n }

def Counts.addAccesses (c : Counts) (n : ℕ) : Counts :=
  { c with accesses := c.accesses + n }

def Counts.addFuncCalls (c : Counts) (n : ℕ) : Counts :=
  { c with func_calls := c.func_calls + n }

/-- Number of indices `j < L` where `row[j] ≠ 0` (sparse pivoting only spends
operations there). -/
def countNZ (row : List ℚ) (L : ℕ) : ℕ :=
  ((List.range L).filter (fun j => decide (row.getD j 0 ≠ 0))).length

/-- `find_pivot_column_w_counts` (simplex_with_counts.py lines 65-80). -/
def find_pivot_column_w_counts (t : List (List ℚ)) (counts : Counts) :
    ℕ × Counts :=
  let bottom_row := (t.getD (t.length - 1) []).dropLast.dropLast
  let counts := counts.addAccesses ((t.getD (t.length - 1) []).length - 2)
  let counts := counts.addAssignments 1
  let min_value := pyListMin bottom_row
  let counts := counts.addFuncCalls 1
  let counts := counts.addAssignments 1
  let counts := counts.addAccesses 1
  let pivot_col_index := pyIndexOf min_value bottom_row
  let counts := counts.addFuncCalls 1
  let counts := counts.addAssignments 1
  (pivot_col_index, counts)

/-- One iteration of the quotient loop of
`calculate_quotients_and_find_pivot_row_w_counts` (simplex_with_counts.py
lines 87-103): append the quotient of row `i` and count. -/
def quotStep (t : List (List ℚ)) (k : ℕ) (qc : List (Option ℚ × ℕ) × Counts)
    (i : ℕ) : List (Option ℚ × ℕ) × Counts :=
  let row := t.getD i []
  let counts := qc.2.addComparisons 1
  let counts := counts.addAccesses 1
  if 0 < row.getD k 0 then
    let counts := counts.addComparisons 1
    let counts := counts.addAccesses 2
    let counts := counts.addArithmetic 1
    let counts := counts.addAssignments 1
    (qc.1 ++ [(some (row.getD (row.length - 1) 0 / row.getD k 0), i)], counts)
  else
    let counts := counts.addComparisons 1
    let counts := counts.addAssignments 1
    (qc.1 ++ [(none, i)], counts)

/-- `calculate_quotients_and_find_pivot_row_w_counts` (simplex_with_counts.py
lines 83-112). -/
def calculate_quotients_and_find_pivot_row_w_counts (t : List (List ℚ))
    (k : ℕ) (counts : Counts) : ℕ × Counts :=
  let counts := counts.addAssignments 1
  let qc := (List.range (t.length - 1)).foldl (quotStep t k) ([], counts)
  let quotients := qc.1
  let counts := qc.2.addComparisons (quotients.length - 1)
  let counts := counts.addFuncCalls 1
  let pivot_row_index := (pyMinPair quotients).2
  let counts := counts.addAssignments 1
  (pivot_row_index, counts)

/-- `perform_pivoting_w_counts` (simplex_with_counts.py lines 115-145): the
dense pivot of `perform_pivoting` with counting.  Per normalization iteration
Python adds comparisons 1, accesses 3, arithmetic 1, assignments 1; per
elimination row it adds comparisons 1 (plus comparisons 1, accesses 1,
assignments 1 on rows other than the pivot row), and per cell of such a row
func_calls 1, accesses 4, arithmetic 2, assignments 1. -/
def perform_pivoting_w_counts (t : List (List ℚ)) (r k : ℕ) (counts : Counts) :
    List (List ℚ) × Counts :=
  let p := (t.getD r []).getD k 0
  let counts := (counts.addAccesses 2).addAssignments 1
  let L := (t.getD 0 []).length
  let t1 := updRow t r (rowFoldG L (fun _ _ => true) (fun _ x => x / p))
  let counts :=
    (((counts.addComparisons L).addAccesses (3 * L)).addArithmetic L).addAssignments L
  let t2 := rowLoopExcept t1.length r
    (fun _ pivotRow row =>
      rowFoldG row.length (fun _ _ => true)
        (fun j x => x - row.getD k 0 * pivotRow.getD j 0) row)
    t1
  let others := (List.range t.length).filter (fun i => decide (i ≠ r))
  let innerTotal := (others.map (fun i => (t.getD i []).length)).sum
  let counts := counts.addComparisons t.length
  let counts :=
    ((counts.addComparisons others.length).addAccesses others.length).addAssignments
      others.length
  let counts :=
    (((counts.addFuncCalls innerTotal).addAccesses (4 * innerTotal)).addArithmetic
      (2 * innerTotal)).addAssignments innerTotal
  (t2, counts)

/-- `perform_sparse_pivoting_w_counts` (simplex_with_counts.py lines
149-182): the sparse pivot of `perform_sparse_pivoting` with counting.
Normalization spends accesses/arithmetic/assignments only on the non-zero
entries of the pivot row; elimination only on rows whose pivot-column entry
is non-zero, and within a row only on positions where the normalized pivot
row is non-zero. -/
def perform_sparse_pivoting_w_counts (t : List (List ℚ)) (r k : ℕ)
    (counts : Counts) : List (List ℚ) × Counts :=
  let p := (t.getD r []).getD k 0
  let counts := (counts.addAccesses 2).addAssignments 1
  let L := (t.getD 0 []).length
  let nzOrig := countNZ (t.getD r []) L
  let t1 := updRow t r (rowFoldG L (fun _ x => decide (x ≠ 0)) (fun _ x => x / p))
  let counts := (counts.addComparisons L).addAccesses L
  let counts := ((counts.addAccesses nzOrig).addArithmetic nzOrig).addAssignments nzOrig
  let pivotRow := t1.getD r []
  let nzPivot := countNZ pivotRow L
  let elimRows := (List.range t.length).filter
    (fun i => decide (i ≠ r) && decide ((t.getD i []).getD k 0 ≠ 0))
  let t2 := rowLoopExcept t1.length r
    (fun _ pr row =>
      if row.getD k 0 = 0 then row
      else
        rowFoldG L (fun j _ => decide (pr.getD j 0 ≠ 0))
          (fun j x => x - row.getD k 0 * pr.getD j 0) row)
    t1
  let counts := counts.addComparisons t.length
  let counts :=
    ((counts.addComparisons elimRows.length).addAccesses elimRows.length).addAssignments
      elimRows.length
  let counts :=
    ((counts.addAccesses (3 * (elimRows.length * nzPivot))).addArithmetic
      (2 * (elimRows.length * nzPivot))).addAssignments (elimRows.length * nzPivot)
  (t2, counts)

/-- `construct_simplex_tableau_w_counts` (simplex_with_counts.py lines
185-226): same tableau fills as `construct_simplex_tableau`, with counting. -/
def construct_simplex_tableau_w_counts (A : List ℚ) (b : List (List ℚ))
    (c : List ℚ) (counts : Counts) : List (List ℚ) × Counts :=
  let num_of_variables := A.length
  let num_of_slack_variables := b.length
  let num_of_columns := num_of_variables + num_of_slack_variables + 2
  let num_of_rows := num_of_slack_variables + 1
  let counts := ((counts.addAssignments 4).addFuncCalls 2).addArithmetic 3
  let t0 := List.replicate num_of_rows (List.replicate num_of_columns (0 : ℚ))
  let counts :=
    (counts.addAssignments 1).addArithmetic (num_of_columns * num_of_rows)
  let t1 := rowLoopAll num_of_slack_variables
    (fun i row =>
      (row.set (num_of_variables + i) 1).set (num_of_columns - 1) (c.getD i 0))
    t0
  let counts :=
    (((counts.addComparisons num_of_slack_variables).addAssignments
      (2 * num_of_slack_variables)).addAccesses
      (5 * num_of_slack_variables)).addArithmetic num_of_slack_variables
  let t2 := updRow t1 (num_of_rows - 1)
    (fun row => rowFoldG num_of_variables (fun _ _ => true)
      (fun j _ => A.getD j 0) row)
  let counts :=
    ((counts.addComparisons num_of_variables).addAssignments
      num_of_variables).addAccesses (2 * num_of_variables)
  let t3 := updRow t2 (num_of_rows - 1) (fun row => row.set (num_of_columns - 2) 1)
  let counts := (counts.addAssignments 1).addAccesses 2
  let t4 := rowLoopAll num_of_slack_variables
    (fun i row =>
      let constraint := b.getD i []
      let coeffs := constraint.take (constraint.length - num_of_slack_variables)
      rowFoldG coeffs.length (fun _ _ => true) (fun j _ => coeffs.getD j 0) row)
    t3
  let innerTotal := ((List.range num_of_slack_variables).map
    (fun i => ((b.getD i []).take
      ((b.getD i []).length - num_of_slack_variables)).length)).sum
  let counts := counts.addComparisons num_of_slack_variables
  let counts :=
    ((counts.addComparisons innerTotal).addAssignments innerTotal).addAccesses
      (2 * innerTotal)
  (t4, counts)

/-- The convergence loop of `simplex_w_counts` (simplex_with_counts.py lines
47-61), with fuel.  On an unrecognized strategy name Python prints
`Matrix type falsely specified...` and falls through without pivoting, so the
tableau is unchanged and the `while` guard is re-evaluated on the same
tableau. -/
def simplexLoop_w_counts : ℕ → String → List (List ℚ) → Counts →
    Option (List (List ℚ) × Counts)
  | 0, _, _, _ => none
  | fuel + 1, matrix, s_tableau, counts =>
    if pyListMin (bottomRow s_tableau) < 0 then
      let counts := (counts.addComparisons 1).addFuncCalls 1
      let counts :=
        counts.addAccesses ((s_tableau.getD (s_tableau.length - 1) []).length - 2)
      let pc := find_pivot_column_w_counts s_tableau counts
      let pr := calculate_quotients_and_find_pivot_row_w_counts s_tableau pc.1 pc.2
      if matrix = "dense" then
        let tc := perform_pivoting_w_counts s_tableau pr.1 pc.1 pr.2
        simplexLoop_w_counts fuel matrix tc.1 tc.2
      else if matrix = "sparse" then
        let tc := perform_sparse_pivoting_w_counts s_tableau pr.1 pc.1 pr.2
        simplexLoop_w_counts fuel matrix tc.1 tc.2
      else
        simplexLoop_w_counts fuel matrix s_tableau pr.2
    else some (s_tableau, counts)

/-- `simplex_w_counts` (simplex_with_counts.py lines 15-62): the setup
(negation of the objective under `func == 'max'`, slack augmentation of `b`,
tableau construction) followed by the convergence loop. -/
def simplex_w_counts (fuel : ℕ) (A : List ℚ) (b : List (List ℚ)) (c : List ℚ)
    (func matrix : String) : Option (List (List ℚ) × Counts) :=
  let counts : Counts := ⟨0, 0, 0, 0, 0⟩
  let num_of_slack_variables := b.length
  let counts := (counts.addAssignments 1).addFuncCalls 1
  let A' := if func = "max" then A.map (fun a => -a) else A
  let counts :=
    if func = "max" then
      ((counts.addComparisons 1).addArithmetic A.length).addAssignments 1
    else counts
  let b' := extendSlack b
  let counts :=
    (((counts.addComparisons (2 * num_of_slack_variables)).addArithmetic
      (num_of_slack_variables * num_of_slack_variables)).addAssignments
      num_of_slack_variables).addAccesses
      (num_of_slack_variables * (num_of_slack_variables + 1))
  let counts := counts.addFuncCalls 1
  let tc := construct_simplex_tableau_w_counts A' b' c counts
  let counts := tc.2.addAssignments 1
  simplexLoop_w_counts fuel matrix tc.1 counts

/-! ## The counters are a pure side channel

The tableau component of every instrumented operation coincides with the
corresponding uninstrumented operation, whatever the incoming counter
values. -/

theorem foldl_pair_fst {α β γ : Type} (l : List γ) (g : α × β → γ → α × β)
    (f : α → γ → α) (h : ∀ p x, (g p x).1 = f p.1 x) :
    ∀ p0 : α × β, (l.foldl g p0).1 = l.foldl f p0.1 := by
  induction l with
  | nil => intro p0; rfl
  | cons x xs ih =>
    intro p0
    rw [List.foldl_cons, List.foldl_cons, ih, h]

theorem foldl_append_singleton {α : Type} (F : ℕ → α) :
    ∀ (N : ℕ) (acc : List α),
      (List.range N).foldl (fun a i => a ++ [F i]) acc =
        acc ++ (List.range N).map F := by
  intro N
  induction N with
  | zero => intro acc; simp
  | succ n ih =>
    intro acc
    rw [List.range_succ, List.foldl_append, List.foldl_cons, List.foldl_nil, ih,
      List.map_append, List.map_cons, List.map_nil, List.append_assoc]

theorem quotStep_fst (t : List (List ℚ)) (k : ℕ) (qc : List (Option ℚ × ℕ) × Counts)
    (i : ℕ) : (quotStep t k qc i).1 = qc.1 ++ [quotEntry t k i] := by
  rw [quotStep, quotEntry]
  split <;> rfl

theorem find_pivot_column_w_counts_fst (t : List (List ℚ)) (counts : Counts) :
    (find_pivot_column_w_counts t counts).1 = find_pivot_column t := rfl

theorem calculate_quotients_w_counts_fst (t : List (List ℚ)) (k : ℕ)
    (counts : Counts) :
    (calculate_quotients_and_find_pivot_row_w_counts t k counts).1 =
      calculate_quotients_and_find_pivot_row t k := by
  rw [calculate_quotients_and_find_pivot_row_w_counts,
    calculate_quotients_and_find_pivot_row]
  have h := foldl_pair_fst (List.range (t.length - 1)) (quotStep t k)
    (fun a i => a ++ [quotEntry t k i]) (quotStep_fst t k)
    ([], (counts.addAssignments 1))
  simp only at h
  rw [h, foldl_append_singleton, List.nil_append, quotientsList]

theorem construct_w_counts_fst (A : List ℚ) (b : List (List ℚ)) (c : List ℚ)
    (counts : Counts) :
    (construct_simplex_tableau_w_counts A b c counts).1 =
      construct_simplex_tableau A b c := rfl

theorem perform_pivoting_w_counts_fst (t : List (List ℚ)) (r k : ℕ)
    (counts : Counts) :
    (perform_pivoting_w_counts t r k counts).1 = perform_pivoting t r k := rfl

theorem perform_sparse_pivoting_w_counts_fst (t : List (List ℚ)) (r k : ℕ)
    (counts : Counts) :
    (perform_sparse_pivoting_w_counts t r k counts).1 =
      perform_sparse_pivoting t r k := rfl

/-! ## Shape preservation and dense/sparse agreement of the pivot -/

theorem perform_pivoting_length (t : List (List ℚ)) (r k : ℕ) :
    (perform_pivoting t r k).length = t.length := by
  rw [perform_pivoting, rowLoopExcept_length, length_updRow]

theorem perform_sparse_pivoting_length (t : List (List ℚ)) (r k : ℕ) :
    (perform_sparse_pivoting t r k).length = t.length := by
  rw [perform_sparse_pivoting, rowLoopExcept_length, length_updRow]

theorem updRow_length_pres (t : List (List ℚ)) (r : ℕ) (g : List ℚ → List ℚ)
    (hg : (g (t.getD r [])).length = (t.getD r []).length) (i : ℕ) :
    ((updRow t r g).getD i []).length = (t.getD i []).length := by
  rw [getD_updRow]
  split
  · rename_i h
    rw [hg, h.1]
  · rfl

theorem rowLoopExcept_row_length (M r : ℕ) (G : ℕ → List ℚ → List ℚ → List ℚ)
    (t : List (List ℚ)) (hG : ∀ i pr row, (G i pr row).length = row.length)
    (q : ℕ) :
    ((rowLoopExcept M r G t).getD q []).length = (t.getD q []).length := by
  rw [rowLoopExcept_getD]
  split
  · rw [hG]
  · rfl

theorem perform_pivoting_row_length (t : List (List ℚ)) (r k i : ℕ) :
    ((perform_pivoting t r k).getD i []).length = (t.getD i []).length := by
  rw [perform_pivoting]
  rw [rowLoopExcept_row_length _ _ _ _
    (fun i2 pr row => length_rowFoldG row.length _ _ row) i]
  exact updRow_length_pres t r _ (length_rowFoldG _ _ _ _) i

theorem perform_sparse_pivoting_row_length (t : List (List ℚ)) (r k i : ℕ) :
    ((perform_sparse_pivoting t r k).getD i []).length = (t.getD i []).length := by
  rw [perform_sparse_pivoting]
  rw [rowLoopExcept_row_length _ _ _ _
    (fun i2 pr row => by
      split
      · rfl
      · exact length_rowFoldG _ _ _ row) i]
  exact updRow_length_pres t r _ (length_rowFoldG _ _ _ _) i

/-- The dense and the sparse pivot leave the tableau in the same state: the
sparse zero-skips never change a value (`0 / p = 0`, subtracting
`factor * 0` or `0 * pivot` is the identity), they only save operations.
The tableau must be rectangular (as every tableau built by
`construct_simplex_tableau` is), since the dense inner loop runs over
`len(row)` where the sparse one runs over `len(s_tableau[0])`. -/
theorem pivot_dense_eq_sparse (t : List (List ℚ)) (r k : ℕ)
    (hrect : ∀ i < t.length, (t.getD i []).length = (t.getD 0 []).length) :
    perform_pivoting t r k = perform_sparse_pivoting t r k := by
  rw [perform_pivoting, perform_sparse_pivoting]
  have hnorm : rowFoldG (t.getD 0 []).length (fun _ _ => true)
      (fun _ x => x / (t.getD r []).getD k 0) (t.getD r []) =
    rowFoldG (t.getD 0 []).length (fun _ x => decide (x ≠ 0))
      (fun _ x => x / (t.getD r []).getD k 0) (t.getD r []) := by
    apply list_eq_of_getD
    · rw [length_rowFoldG, length_rowFoldG]
    · intro j
      rw [getD_rowFoldG, getD_rowFoldG]
      by_cases hz : (t.getD r []).getD j 0 = 0
      · rw [hz]
        by_cases hc : j < (t.getD 0 []).length ∧ j < (t.getD r []).length
        · rw [if_pos ⟨hc.1, hc.2, rfl⟩, if_neg, zero_div]
          intro h2
          exact absurd hz (by simpa using h2.2.2)
        · rw [if_neg (fun h2 => hc ⟨h2.1, h2.2.1⟩),
            if_neg (fun h2 => hc ⟨h2.1, h2.2.1⟩)]
      · by_cases hc : j < (t.getD 0 []).length ∧ j < (t.getD r []).length
        · rw [if_pos ⟨hc.1, hc.2, rfl⟩, if_pos ⟨hc.1, hc.2, by simpa using hz⟩]
        · rw [if_neg (fun h2 => hc ⟨h2.1, h2.2.1⟩),
            if_neg (fun h2 => hc ⟨h2.1, h2.2.1⟩)]
  have hupd : updRow t r (rowFoldG (t.getD 0 []).length (fun _ _ => true)
      (fun _ x => x / (t.getD r []).getD k 0)) =
      updRow t r (rowFoldG (t.getD 0 []).length (fun _ x => decide (x ≠ 0))
        (fun _ x => x / (t.getD r []).getD k 0)) := by
    rw [updRow, updRow, hnorm]
  rw [hupd]
  set t1 := updRow t r (rowFoldG (t.getD 0 []).length (fun _ x => decide (x ≠ 0))
    (fun _ x => x / (t.getD r []).getD k 0)) with ht1
  apply tableau_eq_of_getD
  · rw [rowLoopExcept_length, rowLoopExcept_length]
  · intro q
    rw [rowLoopExcept_getD, rowLoopExcept_getD]
    by_cases hcond : q ≠ r ∧ q < t1.length ∧ q < t1.length
    · rw [if_pos hcond, if_pos hcond]
      obtain ⟨hqr, hq1, _⟩ := hcond
      have hql : q < t.length := by
        rw [ht1, length_updRow] at hq1
        exact hq1
      have hq : t1.getD q [] = t.getD q [] := by
        rw [ht1, getD_updRow, if_neg (fun h2 => hqr h2.1.symm)]
      rw [hq]
      have hL : (t.getD q []).length = (t.getD 0 []).length := hrect q hql
      by_cases hf : (t.getD q []).getD k 0 = 0
      · rw [if_pos hf]
        apply list_eq_of_getD
        · rw [length_rowFoldG]
        · intro j
          rw [getD_rowFoldG]
          split
          · rw [hf, zero_mul, sub_zero]
          · rfl
      · rw [if_neg hf]
        apply list_eq_of_getD
        · rw [length_rowFoldG, length_rowFoldG]
        · intro j
          rw [getD_rowFoldG, getD_rowFoldG]
          by_cases hz : (t1.getD r []).getD j 0 = 0
          · rw [hz, mul_zero, sub_zero, ite_self, ite_self]
          · by_cases h2 : j < (t.getD q []).length
            · rw [if_pos ⟨h2, h2, rfl⟩, if_pos ⟨hL ▸ h2, h2, by simpa using hz⟩]
            · rw [if_neg (fun h3 => h2 h3.1), if_neg (fun h3 => h2 h3.2.1)]
    · rw [if_neg hcond, if_neg hcond]

/-- Run to completion from the same tableau, the dense and the sparse
strategies agree on every intermediate and final tableau, whatever counter
values each side carries: the counters never feed back into pivot selection
or pivoting. -/
theorem simplexLoop_dense_sparse (fuel : ℕ) :
    ∀ (t : List (List ℚ)) (c1 c2 : Counts),
      (∀ i < t.length, (t.getD i []).length = (t.getD 0 []).length) →
      (simplexLoop_w_counts fuel "dense" t c1).map Prod.fst =
        (simplexLoop_w_counts fuel "sparse" t c2).map Prod.fst := by
  induction fuel with
  | zero =>
    intro t c1 c2 _
    rfl
  | succ n ih =>
    intro t c1 c2 hrect
    rw [simplexLoop_w_counts, simplexLoop_w_counts]
    by_cases hg : pyListMin (bottomRow t) < 0
    · rw [if_pos hg, if_pos hg,
        if_pos (rfl : ("dense" : String) = "dense"),
        if_neg (by decide : ¬ ("sparse" : String) = "dense"),
        if_pos (rfl : ("sparse" : String) = "sparse")]
      simp only [find_pivot_column_w_counts_fst, calculate_quotients_w_counts_fst,
        perform_pivoting_w_counts_fst, perform_sparse_pivoting_w_counts_fst]
      rw [← pivot_dense_eq_sparse t _ _ hrect]
      apply ih
      intro i hi
      rw [perform_pivoting_row_length, perform_pivoting_row_length]
      rw [perform_pivoting_length] at hi
      exact hrect i hi
    · rw [if_neg hg, if_neg hg]
      rfl

/-! ## Shape of the constructed tableau -/

theorem getD_replicate_zero (nn j : ℕ) : (List.replicate nn (0 : ℚ)).getD j 0 = 0 := by
  rw [List.getD_eq_getElem?_getD, List.getElem?_replicate]
  split <;> rfl

theorem getD_replicate_row (R : ℕ) (row : List ℚ) (i : ℕ) (hi : i < R) :
    (List.replicate R row).getD i [] = row := by
  rw [List.getD_eq_getElem?_getD, List.getElem?_replicate, if_pos hi]
  rfl

theorem rowLoopAll_row_length (M : ℕ) (G : ℕ → List ℚ → List ℚ)
    (t : List (List ℚ)) (hG : ∀ i row, (G i row).length = row.length) (q : ℕ) :
    ((rowLoopAll M G t).getD q []).length = (t.getD q []).length := by
  rw [rowLoopAll_getD]
  split
  · rw [hG]
  · rfl

theorem construct_length (A : List ℚ) (b : List (List ℚ)) (c : List ℚ) :
    (construct_simplex_tableau A b c).length = b.length + 1 := by
  rw [construct_simplex_tableau, rowLoopAll_length, length_updRow, length_updRow,
    rowLoopAll_length, List.length_replicate]

theorem construct_row_length (A : List ℚ) (b : List (List ℚ)) (c : List ℚ)
    (i : ℕ) (hi : i < b.length + 1) :
    ((construct_simplex_tableau A b c).getD i []).length =
      A.length + b.length + 2 := by
  rw [construct_simplex_tableau]
  rw [rowLoopAll_row_length _ _ _ (fun i2 row => length_rowFoldG _ _ _ row) i]
  rw [updRow_length_pres _ _ _ (List.length_set ..) i]
  rw [updRow_length_pres _ _ _ (length_rowFoldG _ _ _ _) i]
  rw [rowLoopAll_row_length _ _ _ (fun i2 row => by
    rw [List.length_set, List.length_set]) i]
  rw [getD_replicate_row _ _ _ hi, List.length_replicate]

/-- Cells of a constraint row `i < m` of the constructed tableau: the
truncated constraint coefficients (written last) win, then the bound in the
final column, then the slack `1` at column `n + i`, and `0` everywhere
else. -/
theorem construct_getD_con (A : List ℚ) (b : List (List ℚ)) (c : List ℚ)
    (i : ℕ) (hi : i < b.length) (j : ℕ) :
    ((construct_simplex_tableau A b c).getD i []).getD j 0 =
      if j < ((b.getD i []).take ((b.getD i []).length - b.length)).length ∧
          j < A.length + b.length + 2 then
        ((b.getD i []).take ((b.getD i []).length - b.length)).getD j 0
      else if A.length + b.length + 1 = j then c.getD i 0
      else if A.length + i = j ∧ A.length + i < A.length + b.length + 2 then 1
      else 0 := by
  have hrows : i < b.length + 1 := Nat.lt_succ_of_lt hi
  rw [construct_simplex_tableau]
  rw [rowLoopAll_getD]
  rw [if_pos ⟨hi, by
    rw [length_updRow, length_updRow, rowLoopAll_length, List.length_replicate]
    exact hrows⟩]
  rw [getD_updRow, if_neg (fun h2 => absurd (h2.1 ▸ hi) (by omega))]
  rw [getD_updRow, if_neg (fun h2 => absurd (h2.1 ▸ hi) (by omega))]
  rw [rowLoopAll_getD, if_pos ⟨hi, by
    rw [List.length_replicate]
    exact hrows⟩]
  rw [getD_replicate_row _ _ _ hrows]
  rw [getD_rowFoldG]
  have hlen2 : (((List.replicate (A.length + b.length + 2) (0 : ℚ)).set
      (A.length + i) 1).set (A.length + b.length + 2 - 1) (c.getD i 0)).length =
      A.length + b.length + 2 := by
    rw [List.length_set, List.length_set, List.length_replicate]
  rw [hlen2]
  by_cases h1 : j < ((b.getD i []).take ((b.getD i []).length - b.length)).length ∧
      j < A.length + b.length + 2
  · rw [if_pos ⟨h1.1, h1.2, rfl⟩, if_pos h1]
  · rw [if_neg (fun h2 => h1 ⟨h2.1, h2.2.1⟩), if_neg h1]
    rw [getD_set, List.length_set, List.length_replicate]
    by_cases h2 : A.length + b.length + 2 - 1 = j
    · rw [if_pos ⟨h2, by omega⟩, if_pos (by omega : A.length + b.length + 1 = j)]
    · rw [if_neg (fun h3 => h2 h3.1), if_neg (by omega : ¬ A.length + b.length + 1 = j)]
      rw [getD_set, List.length_replicate]
      by_cases h3 : A.length + i = j ∧ A.length + i < A.length + b.length + 2
      · rw [if_pos h3, if_pos h3]
      · rw [if_neg h3, if_neg h3, getD_replicate_zero]

/-- Cells of the objective row (index `m`) of the constructed tableau: `1` in
the `Z` column, the objective coefficients (already negated by the caller) in
the first `n` columns, and `0` elsewhere (in particular in the final
right-hand-side column). -/
theorem construct_getD_obj (A : List ℚ) (b : List (List ℚ)) (c : List ℚ)
    (j : ℕ) :
    ((construct_simplex_tableau A b c).getD b.length []).getD j 0 =
      if A.length + b.length = j then 1
      else if j < A.length ∧ j < A.length + b.length + 2 then A.getD j 0
      else 0 := by
  rw [construct_simplex_tableau]
  rw [rowLoopAll_getD, if_neg (fun h2 => absurd h2.1 (Nat.lt_irrefl b.length))]
  rw [getD_updRow, if_pos ⟨rfl, by
    rw [length_updRow, rowLoopAll_length, List.length_replicate]
    omega⟩]
  rw [getD_updRow, if_pos ⟨rfl, by
    rw [rowLoopAll_length, List.length_replicate]
    omega⟩]
  rw [rowLoopAll_getD, if_neg (fun h2 => absurd h2.1 (Nat.lt_irrefl b.length))]
  rw [getD_replicate_row (b.length + 1) _ (b.length + 1 - 1) (by omega)]
  rw [getD_set, length_rowFoldG, List.length_replicate]
  by_cases h1 : A.length + b.length + 2 - 2 = j
  · rw [if_pos ⟨h1, by omega⟩, if_pos (by omega : A.length + b.length = j)]
  · rw [if_neg (fun h2 => h1 h2.1), if_neg (by omega : ¬ A.length + b.length = j)]
    rw [getD_rowFoldG, List.length_replicate, getD_replicate_zero]
    by_cases h2 : j < A.length ∧ j < A.length + b.length + 2
    · rw [if_pos ⟨h2.1, by omega, rfl⟩, if_pos h2]
    · rw [if_neg (fun h3 => h2 ⟨h3.1, by omega⟩), if_neg h2]

theorem extendSlack_length (b : List (List ℚ)) : (extendSlack b).length = b.length := by
  rw [extendSlack, rowLoopAll_length]

theorem extendSlack_getD (b : List (List ℚ)) (i : ℕ) (hi : i < b.length) :
    (extendSlack b).getD i [] =
      b.getD i [] ++ (List.range b.length).map (fun j => if i = j then (1 : ℚ) else 0) := by
  rw [extendSlack, rowLoopAll_getD, if_pos ⟨hi, hi⟩]

/-- The tableau that `simplex` builds before entering its convergence loop:
objective coefficients negated, constraint rows extended with the identity
block, then `construct_simplex_tableau`. -/
def simplexTableau (A : List ℚ) (b : List (List ℚ)) (c : List ℚ) :
    List (List ℚ) :=
  construct_simplex_tableau (A.map (fun a => -a)) (extendSlack b) c

theorem simplex_eq (A : List ℚ) (b : List (List ℚ)) (c : List ℚ) :
    simplex A b c =
      if pyListMin (bottomRow (simplexTableau A b c)) < 0 then
        Except.error (PyRunError.nameError "plot_for_gif")
      else Except.ok (simplexTableau A b c) := rfl

/-! ## Supporting facts for the claim theorems -/

theorem getD_map_neg (A : List ℚ) (j : ℕ) (hj : j < A.length) :
    (A.map (fun a => -a)).getD j 0 = -(A.getD j 0) := by
  rw [List.getD_eq_getElem?_getD, List.getD_eq_getElem?_getD,
    List.getElem?_eq_getElem hj,
    List.getElem?_eq_getElem (by simpa using hj : j < (A.map (fun a => -a)).length)]
  simp

theorem construct_rect (A : List ℚ) (b : List (List ℚ)) (c : List ℚ) :
    ∀ i < (construct_simplex_tableau A b c).length,
      ((construct_simplex_tableau A b c).getD i []).length =
        ((construct_simplex_tableau A b c).getD 0 []).length := by
  intro i hi
  rw [construct_length] at hi
  rw [construct_row_length _ _ _ _ hi, construct_row_length _ _ _ 0 (by omega)]

theorem quotientsList_length (t : List (List ℚ)) (k : ℕ) :
    (quotientsList t k).length = t.length - 1 := by
  rw [quotientsList, List.length_map, List.length_range]

theorem quotEntry_snd (t : List (List ℚ)) (k i : ℕ) : (quotEntry t k i).2 = i := by
  rw [quotEntry]
  split <;> rfl

theorem pairLt_some_none (a : ℚ) (x y : ℕ) :
    pairLt (some a, x) ((none : Option ℚ), y) = true := by
  simp [pairLt, qLt]

theorem pairLt_none_none (x y : ℕ) :
    pairLt ((none : Option ℚ), x) ((none : Option ℚ), y) = decide (x < y) := by
  simp [pairLt, qLt]

theorem pairLt_some_some_false (a b : ℚ) (x y : ℕ)
    (h : pairLt (some a, x) (some b, y) = false) :
    b ≤ a ∧ (a = b → ¬ x < y) := by
  simp only [pairLt, qLt, Bool.or_eq_false_iff, Bool.and_eq_false_iff,
    decide_eq_false_iff_not, Prod.mk.injEq, Option.some.injEq] at h
  constructor
  · exact le_of_not_lt h.1
  · intro he hxy
    rcases h.2 with h2 | h2
    · exact h2 (by rw [he])
    · exact h2 hxy

theorem getD_mem_of_lt (l : List ℚ) (i : ℕ) (hi : i < l.length) :
    l.getD i 0 ∈ l := by
  rw [List.getD_eq_getElem?_getD, List.getElem?_eq_getElem hi, Option.getD_some]
  exact List.getElem_mem hi

theorem quotEntry_mem (t : List (List ℚ)) (k q : ℕ) (hq : q < t.length - 1) :
    quotEntry t k q ∈ quotientsList t k := by
  rw [quotientsList]
  exact List.mem_map_of_mem _ (List.mem_range.mpr hq)

/-- On a tableau whose loop guard already fails, the instrumented loop exits
at once with the tableau unchanged. -/
theorem simplexLoop_guard_false (fuel : ℕ) (matrix : String)
    (t : List (List ℚ)) (counts : Counts)
    (hg : ¬ pyListMin (bottomRow t) < 0) (hf : 0 < fuel) :
    simplexLoop_w_counts fuel matrix t counts = some (t, counts) := by
  match fuel with
  | n + 1 => rw [simplexLoop_w_counts, if_neg hg]

/-- With an unrecognized strategy name, the loop body never pivots: the
tableau is unchanged, the guard keeps holding, and no fuel is ever enough. -/
theorem simplexLoop_bad_strategy (matrix : String) (hd : matrix ≠ "dense")
    (hs : matrix ≠ "sparse") :
    ∀ (fuel : ℕ) (t : List (List ℚ)) (counts : Counts),
      pyListMin (bottomRow t) < 0 →
      simplexLoop_w_counts fuel matrix t counts = none := by
  intro fuel
  induction fuel with
  | zero =>
    intro t counts _
    rfl
  | succ n ih =>
    intro t counts hg
    rw [simplexLoop_w_counts, if_pos hg, if_neg hd, if_neg hs]
    exact ih _ _ hg

/-- The counter value accumulated by the setup phase of `simplex_w_counts`
(everything before the convergence loop); it does not depend on the strategy
string. -/
def setupCounts (A : List ℚ) (b : List (List ℚ)) (c : List ℚ) (func : String) :
    Counts :=
  let counts : Counts := ⟨0, 0, 0, 0, 0⟩
  let counts := (counts.addAssignments 1).addFuncCalls 1
  let counts :=
    if func = "max" then
      ((counts.addComparisons 1).addArithmetic A.length).addAssignments 1
    else counts
  let counts :=
    (((counts.addComparisons (2 * b.length)).addArithmetic
      (b.length * b.length)).addAssignments b.length).addAccesses
      (b.length * (b.length + 1))
  let counts := counts.addFuncCalls 1
  ((construct_simplex_tableau_w_counts
    (if func = "max" then A.map (fun a => -a) else A) (extendSlack b) c
    counts).2).addAssignments 1

/-- `simplex_w_counts` is its setup followed by the convergence loop on the
constructed tableau; the starting counter value does not depend on the
strategy string. -/
theorem simplex_w_counts_eq_loop (fuel : ℕ) (A : List ℚ) (b : List (List ℚ))
    (c : List ℚ) (func matrix : String) :
    simplex_w_counts fuel A b c func matrix =
      simplexLoop_w_counts fuel matrix
        (construct_simplex_tableau
          (if func = "max" then A.map (fun a => -a) else A) (extendSlack b) c)
        (setupCounts A b c func) := rfl

/-- The quotient `row[-1] / row[pivot_col_index]` computed by the ratio test
for constraint row `i`. -/
def pivotRatio (t : List (List ℚ)) (k i : ℕ) : ℚ :=
  (t.getD i []).getD ((t.getD i []).length - 1) 0 / (t.getD i []).getD k 0

theorem getD_row_mem (l : List (List ℚ)) (i : ℕ) (hi : i < l.length) :
    l.getD i [] ∈ l := by
  rw [List.getD_eq_getElem?_getD, List.getElem?_eq_getElem hi, Option.getD_some]
  exact List.getElem_mem hi

/-! ## The claims -/

/-- C10: for every input whose initial tableau has a negative objective-row
entry outside the Z and RHS columns (so the convergence loop is entered), the
uninstrumented `simplex` fails with the undefined-name error on
`plot_for_gif` before completing its first pivot. -/
theorem C10_simplex_name_error (A : List ℚ) (b : List (List ℚ)) (c : List ℚ)
    (hneg : ∃ i < (bottomRow (simplexTableau A b c)).length,
      (bottomRow (simplexTableau A b c)).getD i 0 < 0) :
    simplex A b c = Except.error (PyRunError.nameError "plot_for_gif") := by
  obtain ⟨i, hi, hlt⟩ := hneg
  have hle := pyListMin_le _ _ (getD_mem_of_lt _ _ hi)
  rw [simplex_eq, if_pos (lt_of_le_of_lt hle hlt)]

theorem C10_simplex_name_error_witness :
    simplex [1] [[1]] [4] = Except.error (PyRunError.nameError "plot_for_gif") :=
  C10_simplex_name_error [1] [[1]] [4] (by decide)

/-- C4 counterexample: the input `A = [1]`, `b = [[1, 7]]`, `c = [5]` has a
constraint row of length 2 while the objective has length 1; no
DimensionMismatch error is raised — construction completes and returns a
finite tableau (whose slack cell has been silently overwritten by the stray
coefficient 7). -/
theorem C4_counterexample :
    simplexTableau [1] [[1, 7]] [5] = [[1, 7, 0, 5], [-1, 0, 1, 0]] := by decide

/-- C4 (amended): tableau construction performs no dimension validation.
Within the index-safe envelope — the bound vector has at least `m` entries
and every constraint row has at most `n + 2m + 2` entries, so every one of
Python's subscript accesses is in range — construction completes with no
error whatsoever, even when constraint-row lengths differ from `n` and the
bound vector is longer than `m`, and returns a tableau of `m + 1` rows each
of length `n + m + 2`; mismatches are absorbed silently instead of raising a
build-time DimensionMismatch.  (Outside that envelope Python fails with an
unchecked `IndexError` at the offending subscript — likewise not a reported
DimensionMismatch; those error paths are collapsed by this total embedding,
hence the hypotheses.) -/
theorem C4_amended_no_dimension_check (A : List ℚ) (b : List (List ℚ))
    (c : List ℚ) (hcb : b.length ≤ c.length)
    (hrow : ∀ row ∈ b, row.length ≤ A.length + 2 * b.length + 2) :
    (construct_simplex_tableau A b c).length = b.length + 1 ∧
    ∀ i < b.length + 1,
      ((construct_simplex_tableau A b c).getD i []).length =
        A.length + b.length + 2 :=
  ⟨construct_length A b c, fun i hi => construct_row_length A b c i hi⟩

theorem C4_amended_witness :
    (construct_simplex_tableau [1] [[1, 7, 1]] [5]).length = 2 ∧
    ((construct_simplex_tableau [1] [[1, 7, 1]] [5]).getD 0 []).length = 4 := by
  have h := C4_amended_no_dimension_check [1] [[1, 7, 1]] [5]
    (by decide) (by decide)
  exact ⟨h.1, h.2 0 (by decide)⟩

/-- C8 counterexample: after the solve on `A = [1]`, `b = [[1]]`, `c = [5]`,
the caller's constraint matrix is no longer `[[1]]`: its row was extended in
place with the slack entry. -/
theorem C8_counterexample :
    (simplexCallerState [1] [[1]] [5]).2.1 ≠ [[1]] := by decide

/-- C8 (amended): building the tableau leaves the caller's objective vector
and bound vector unchanged, but mutates the constraint matrix: each row `i`
is extended in place with the `i`-th row of an `m × m` identity block. -/
theorem C8_amended_caller_state (A : List ℚ) (b : List (List ℚ)) (c : List ℚ) :
    (simplexCallerState A b c).1 = A ∧
    (simplexCallerState A b c).2.2 = c ∧
    (simplexCallerState A b c).2.1.length = b.length ∧
    ∀ i < b.length,
      (simplexCallerState A b c).2.1.getD i [] =
        b.getD i [] ++ (List.range b.length).map (fun j => if i = j then (1 : ℚ) else 0) :=
  ⟨rfl, rfl, extendSlack_length b, fun i hi => extendSlack_getD b i hi⟩

theorem C8_amended_witness :
    (simplexCallerState [1] [[1]] [5]).1 = [1] ∧
    (simplexCallerState [1] [[1]] [5]).2.2 = [5] ∧
    (simplexCallerState [1] [[1]] [5]).2.1.getD 0 [] =
      [1] ++ (List.range 1).map (fun j => if 0 = j then (1 : ℚ) else 0) := by
  have h := C8_amended_caller_state [1] [[1]] [5]
  exact ⟨h.1, h.2.1, h.2.2.2 0 (by decide)⟩

/-- C9 counterexample: with the unrecognized strategy name `"other"` the
instrumented solver does not abort with an error kind.  On an input that
needs a pivot it keeps iterating without progress (no fuel suffices —
modelled as `none`); on an input that is already optimal it returns a normal
result with no error indication at all. -/
theorem C9_counterexample :
    simplex_w_counts 5 [1] [[1]] [4] "max" "other" = none ∧
    simplex_w_counts 5 [-1] [[1]] [4] "max" "other" =
      some ([[1, 1, 0, 4], [1, 0, 1, 0]], ⟨7, 14, 14, 13, 4⟩) := by decide

/-- C9 (amended): an unrecognized strategy name makes the loop body print a
message and fall through without pivoting.  If the initial tableau needs a
pivot the loop re-enters forever on the unchanged tableau (it never
terminates, for any fuel); if the initial tableau is already optimal the
solve returns normally, with no error indication. -/
theorem C9_amended_bad_strategy (A : List ℚ) (b : List (List ℚ)) (c : List ℚ)
    (matrix : String) (hd : matrix ≠ "dense") (hs : matrix ≠ "sparse") :
    (pyListMin (bottomRow (simplexTableau A b c)) < 0 →
      ∀ fuel, simplex_w_counts fuel A b c "max" matrix = none) ∧
    (¬ pyListMin (bottomRow (simplexTableau A b c)) < 0 →
      ∀ fuel, 0 < fuel →
        simplex_w_counts fuel A b c "max" matrix =
          some (simplexTableau A b c, setupCounts A b c "max")) := by
  constructor
  · intro hg fuel
    rw [simplex_w_counts_eq_loop, if_pos (rfl : ("max" : String) = "max")]
    exact simplexLoop_bad_strategy matrix hd hs fuel _ _ hg
  · intro hg fuel hf
    rw [simplex_w_counts_eq_loop, if_pos (rfl : ("max" : String) = "max")]
    exact simplexLoop_guard_false fuel matrix _ _ hg hf

theorem C9_amended_witness :
    simplex_w_counts 7 [1] [[1]] [4] "max" "other" = none :=
  (C9_amended_bad_strategy [1] [[1]] [4] "other" (by decide) (by decide)).1
    (by decide) 7

/-- C2: on every dimensionally consistent input where the uninstrumented
`simplex` returns a tableau and the instrumented `simplex_w_counts` (default
settings: `func = "max"`, `matrix = "dense"`) also returns, the two final
tableaus coincide — the counters are a pure side channel. -/
theorem C2_instrumented_matches_uninstrumented (A : List ℚ) (b : List (List ℚ))
    (c : List ℚ) (fuel : ℕ) (t t' : List (List ℚ)) (cnt : Counts)
    (hb : ∀ row ∈ b, row.length = A.length) (hc : c.length = b.length)
    (h1 : simplex A b c = Except.ok t)
    (h2 : simplex_w_counts fuel A b c "max" "dense" = some (t', cnt)) :
    t' = t := by
  rw [simplex_eq] at h1
  by_cases hg : pyListMin (bottomRow (simplexTableau A b c)) < 0
  · rw [if_pos hg] at h1
    exact Except.noConfusion h1
  · rw [if_neg hg] at h1
    have ht : simplexTableau A b c = t := by
      injection h1
    rw [simplex_w_counts_eq_loop,
      if_pos (rfl : ("max" : String) = "max")] at h2
    rw [show construct_simplex_tableau (A.map (fun a => -a)) (extendSlack b) c =
      simplexTableau A b c from rfl] at h2
    cases fuel with
    | zero => exact Option.noConfusion h2
    | succ n =>
      rw [simplexLoop_w_counts, if_neg hg] at h2
      have h3 := Option.some.inj h2
      have h4 := congrArg Prod.fst h3
      simp only at h4
      rw [← h4, ht]

theorem C2_witness :
    ((∀ row ∈ [[(1 : ℚ)]], row.length = [(-1 : ℚ)].length) ∧
      [(5 : ℚ)].length = [[(1 : ℚ)]].length) ∧
    [[(1 : ℚ), 1, 0, 5], [1, 0, 1, 0]] = [[(1 : ℚ), 1, 0, 5], [1, 0, 1, 0]] := by
  refine ⟨⟨by decide, by decide⟩, ?_⟩
  exact C2_instrumented_matches_uninstrumented [-1] [[1]] [5] 3
    [[1, 1, 0, 5], [1, 0, 1, 0]] [[1, 1, 0, 5], [1, 0, 1, 0]]
    ⟨7, 14, 14, 13, 4⟩ (by decide) (by decide) (by rfl) (by decide)

/-- C3: the dense and the sparse pivot executor leave a (rectangular) tableau
with a non-zero pivot element in identical states, and consequently the
`"dense"` and `"sparse"` strategies of the instrumented solver produce
identical tableaus when run on the same input with the same fuel. -/
theorem C3_dense_sparse_equivalence :
    (∀ (t : List (List ℚ)) (r k : ℕ),
        (∀ i < t.length, (t.getD i []).length = (t.getD 0 []).length) →
        (t.getD r []).getD k 0 ≠ 0 →
        perform_pivoting t r k = perform_sparse_pivoting t r k) ∧
    (∀ (fuel : ℕ) (A : List ℚ) (b : List (List ℚ)) (c : List ℚ) (func : String),
        (simplex_w_counts fuel A b c func "dense").map Prod.fst =
          (simplex_w_counts fuel A b c func "sparse").map Prod.fst) := by
  constructor
  · intro t r k hrect _
    exact pivot_dense_eq_sparse t r k hrect
  · intro fuel A b c func
    rw [simplex_w_counts_eq_loop, simplex_w_counts_eq_loop]
    exact simplexLoop_dense_sparse fuel _ _ _ (construct_rect _ _ _)

theorem C3_witness :
    perform_pivoting (simplexTableau [1] [[1]] [5]) 0 0 =
      perform_sparse_pivoting (simplexTableau [1] [[1]] [5]) 0 0 :=
  C3_dense_sparse_equivalence.1 (simplexTableau [1] [[1]] [5]) 0 0
    (by decide) (by decide)

theorem pyPairFold_all_none (xs : List (Option ℚ × ℕ))
    (hall : ∀ p ∈ xs, p.1 = none) :
    xs.foldl pyPairStep ((none : Option ℚ), 0) = (none, 0) := by
  induction xs with
  | nil => rfl
  | cons y ys ih =>
    rw [List.foldl_cons]
    have hy : pyPairStep ((none : Option ℚ), 0) y = (none, 0) := by
      obtain ⟨y1, y2⟩ := y
      have h1 : y1 = none := hall (y1, y2) (List.mem_cons_self ..)
      subst h1
      rw [pyPairStep, pairLt_none_none]
      simp
    rw [hy]
    exact ih (fun p hp => hall p (List.mem_cons_of_mem _ hp))

/-- C1 counterexample: on the input `A = [1]`, `b = [[-1]]`, `c = [4]` the
chosen pivot column (column 0) has a non-positive entry in every constraint
row, so every ratio is infinite; yet the solver does not report any
Unbounded failure — the pivot-row selector simply returns row index 0 and
the solve proceeds. -/
theorem C1_counterexample :
    (∀ i < (simplexTableau [1] [[-1]] [4]).length - 1,
      ¬ 0 < ((simplexTableau [1] [[-1]] [4]).getD i []).getD 0 0) ∧
    pyListMin (bottomRow (simplexTableau [1] [[-1]] [4])) < 0 ∧
    find_pivot_column (simplexTableau [1] [[-1]] [4]) = 0 ∧
    calculate_quotients_and_find_pivot_row (simplexTableau [1] [[-1]] [4]) 0 = 0 := by
  decide

/-- C1 (amended): when every constraint row has a non-positive entry in the
pivot column, every quotient of the ratio test is infinite and the pivot-row
selector returns row index 0 (the first row, by the tie-break on indices);
no Unbounded failure is reported and the caller receives an ordinary row
index. -/
theorem C1_amended_unbounded_returns_row_zero (t : List (List ℚ)) (k : ℕ)
    (hrows : 0 < t.length - 1)
    (hnp : ∀ i < t.length - 1, ¬ 0 < (t.getD i []).getD k 0) :
    calculate_quotients_and_find_pivot_row t k = 0 := by
  rw [calculate_quotients_and_find_pivot_row]
  have hql : quotientsList t k =
      (List.range (t.length - 1)).map (fun i => ((none : Option ℚ), i)) := by
    rw [quotientsList]
    apply List.map_congr_left
    intro i hi
    simp only [quotEntry]
    rw [if_neg (hnp i (List.mem_range.mp hi))]
  rw [hql]
  obtain ⟨N0, hN⟩ : ∃ N0, t.length - 1 = N0 + 1 := ⟨t.length - 2, by omega⟩
  rw [hN, List.range_succ_eq_map, List.map_cons, pyMinPair]
  rw [pyPairFold_all_none]
  · intro p hp
    rw [List.map_map] at hp
    obtain ⟨i, _, hEq⟩ := List.mem_map.mp hp
    rw [← hEq]
    rfl

theorem C1_amended_witness :
    calculate_quotients_and_find_pivot_row
      (construct_simplex_tableau [-1] [[-1, 1], [0, 1]] [4, 7]) 0 = 0 :=
  C1_amended_unbounded_returns_row_zero
    (construct_simplex_tableau [-1] [[-1, 1], [0, 1]] [4, 7]) 0
    (by decide) (by decide)

/-- C5: after the dense pivot on a rectangular tableau with a non-zero pivot
element, the pivot column is a unit vector: entry `(r, k)` equals 1 and every
other row's entry in column `k` equals 0 (exactly, over `ℚ`). -/
theorem C5_pivot_column_unit (t : List (List ℚ)) (r k : ℕ)
    (hrect : ∀ i < t.length, (t.getD i []).length = (t.getD 0 []).length)
    (hr : r < t.length) (hk : k < (t.getD 0 []).length)
    (hp : (t.getD r []).getD k 0 ≠ 0) :
    ∀ i < t.length,
      ((perform_pivoting t r k).getD i []).getD k 0 = if i = r then 1 else 0 := by
  intro i hi
  rw [perform_pivoting]
  set t1 := updRow t r (rowFoldG (t.getD 0 []).length (fun _ _ => true)
    (fun _ x => x / (t.getD r []).getD k 0)) with ht1
  have ht1r : t1.getD r [] = rowFoldG (t.getD 0 []).length (fun _ _ => true)
      (fun _ x => x / (t.getD r []).getD k 0) (t.getD r []) := by
    rw [ht1, getD_updRow, if_pos ⟨rfl, hr⟩]
  have hpr : (t1.getD r []).getD k 0 = 1 := by
    rw [ht1r, getD_rowFoldG,
      if_pos ⟨hk, by rw [hrect r hr]; exact hk, rfl⟩, div_self hp]
  rw [rowLoopExcept_getD]
  by_cases hir : i = r
  · subst hir
    rw [if_neg (fun hcc => hcc.1 rfl), hpr, if_pos rfl]
  · rw [if_pos ⟨hir, by rw [ht1, length_updRow]; exact hi,
      by rw [ht1, length_updRow]; exact hi⟩]
    have hrowi : t1.getD i [] = t.getD i [] := by
      rw [ht1, getD_updRow, if_neg (fun h2 => hir h2.1.symm)]
    rw [hrowi, getD_rowFoldG,
      if_pos ⟨by rw [hrect i hi]; exact hk, by rw [hrect i hi]; exact hk, rfl⟩,
      hpr, mul_one, sub_self, if_neg hir]

theorem C5_pivot_column_unit_witness :
    ((perform_pivoting (simplexTableau [1] [[1]] [5]) 0 0).getD 1 []).getD 0 0 =
      if 1 = 0 then 1 else 0 :=
  C5_pivot_column_unit (simplexTableau [1] [[1]] [5]) 0 0
    (by decide) (by decide) (by decide) (by decide) 1 (by decide)

/-- C6: the pivot-column selector returns the index of the minimum entry of
the objective row (Z and RHS columns excluded), leftmost on ties; the
pivot-row selector returns, among constraint rows with a strictly positive
pivot-column entry, a row of minimum ratio `RHS / entry`, with ties broken by
the lowest row index (non-positive entries count as infinite ratio and are
never selected while a positive entry exists). -/
theorem C6_pivot_selection (t : List (List ℚ)) (k : ℕ)
    (hcol : ∃ i < (bottomRow t).length, (bottomRow t).getD i 0 < 0)
    (hrow : ∃ i < t.length - 1, 0 < (t.getD i []).getD k 0) :
    (find_pivot_column t < (bottomRow t).length ∧
      (∀ i < (bottomRow t).length,
        (bottomRow t).getD (find_pivot_column t) 0 ≤ (bottomRow t).getD i 0) ∧
      (∀ i < find_pivot_column t,
        (bottomRow t).getD (find_pivot_column t) 0 < (bottomRow t).getD i 0)) ∧
    (calculate_quotients_and_find_pivot_row t k < t.length - 1 ∧
      0 < (t.getD (calculate_quotients_and_find_pivot_row t k) []).getD k 0 ∧
      ∀ i < t.length - 1, 0 < (t.getD i []).getD k 0 →
        pivotRatio t k (calculate_quotients_and_find_pivot_row t k) ≤
          pivotRatio t k i ∧
        (i < calculate_quotients_and_find_pivot_row t k →
          pivotRatio t k (calculate_quotients_and_find_pivot_row t k) <
            pivotRatio t k i)) := by
  constructor
  · obtain ⟨i0, hi0, hneg0⟩ := hcol
    have hne : bottomRow t ≠ [] := by
      intro h
      rw [h] at hi0
      simp at hi0
    have hmem := pyListMin_mem _ hne
    obtain ⟨hjlen, hjval, hjfirst⟩ := pyIndexOf_spec _ _ hmem
    rw [find_pivot_column]
    refine ⟨hjlen, ?_, ?_⟩
    · intro i hi
      rw [hjval]
      exact pyListMin_le _ _ (getD_mem_of_lt _ _ hi)
    · intro i hij
      have h1 := hjfirst i hij
      have h2 := pyListMin_le _ _ (getD_mem_of_lt _ _ (lt_trans hij hjlen))
      rw [hjval]
      exact lt_of_le_of_ne h2 (fun he => h1 he.symm)
  · obtain ⟨i0, hi0, hpos0⟩ := hrow
    have hne : quotientsList t k ≠ [] := by
      intro h
      have hlq := quotientsList_length t k
      rw [h] at hlq
      simp at hlq
      omega
    have hmem := pyMinPair_mem _ hne
    rw [quotientsList] at hmem
    obtain ⟨i, hiR, hEq⟩ := List.mem_map.mp hmem
    rw [← quotientsList] at hEq
    have hiN : i < t.length - 1 := List.mem_range.mp hiR
    have hsnd : (pyMinPair (quotientsList t k)).2 = i := by
      rw [← hEq, quotEntry_snd]
    rw [calculate_quotients_and_find_pivot_row, hsnd]
    have hpi : 0 < (t.getD i []).getD k 0 := by
      by_contra hnegi
      have hform : quotEntry t k i = ((none : Option ℚ), i) := by
        simp only [quotEntry]
        rw [if_neg hnegi]
      have h0 : quotEntry t k i0 = (some (pivotRatio t k i0), i0) := by
        simp only [quotEntry, pivotRatio]
        rw [if_pos hpos0]
      have hle := pyMinPair_le _ _ (quotEntry_mem t k i0 hi0)
      rw [PairLe, ← hEq, hform, h0, pairLt_some_none] at hle
      exact Bool.false_ne_true hle.symm
    have hfi : quotEntry t k i = (some (pivotRatio t k i), i) := by
      simp only [quotEntry, pivotRatio]
      rw [if_pos hpi]
    refine ⟨hiN, hpi, ?_⟩
    intro q hq hposq
    have hfq : quotEntry t k q = (some (pivotRatio t k q), q) := by
      simp only [quotEntry, pivotRatio]
      rw [if_pos hposq]
    have hle := pyMinPair_le _ _ (quotEntry_mem t k q hq)
    rw [PairLe, ← hEq, hfi, hfq] at hle
    obtain ⟨hle2, hne2⟩ := pairLt_some_some_false _ _ _ _ hle
    exact ⟨hle2, fun hqi => lt_of_le_of_ne hle2 (fun he => hne2 he.symm hqi)⟩

theorem C6_pivot_selection_witness :
    (find_pivot_column (simplexTableau [3, 2] [[1, 1], [1, 3]] [4, 6]) <
      (bottomRow (simplexTableau [3, 2] [[1, 1], [1, 3]] [4, 6])).length) ∧
    (calculate_quotients_and_find_pivot_row
        (simplexTableau [3, 2] [[1, 1], [1, 3]] [4, 6]) 0 <
      (simplexTableau [3, 2] [[1, 1], [1, 3]] [4, 6]).length - 1) ∧
    0 < ((simplexTableau [3, 2] [[1, 1], [1, 3]] [4, 6]).getD
        (calculate_quotients_and_find_pivot_row
          (simplexTableau [3, 2] [[1, 1], [1, 3]] [4, 6]) 0) []).getD 0 0 := by
  have h := C6_pivot_selection (simplexTableau [3, 2] [[1, 1], [1, 3]] [4, 6]) 0
    (by decide) (by decide)
  exact ⟨h.1.1, h.2.1, h.2.2.1⟩

/-- C7: on dimensionally consistent inputs, the tableau that `simplex` builds
has `m + 1` rows and `n + m + 2` columns, the slack columns restricted to the
constraint rows form an `m × m` identity block, each constraint row ends with
its bound, the objective row carries the negated objective coefficients in
its first `n` columns, and its Z-column entry is 1. -/
theorem C7_tableau_builder_shape (A : List ℚ) (b : List (List ℚ)) (c : List ℚ)
    (hb : ∀ row ∈ b, row.length = A.length) (hc : c.length = b.length) :
    (simplexTableau A b c).length = b.length + 1 ∧
    (∀ i < b.length + 1,
      ((simplexTableau A b c).getD i []).length = A.length + b.length + 2) ∧
    (∀ i < b.length, ∀ q < b.length,
      ((simplexTableau A b c).getD i []).getD (A.length + q) 0 =
        if q = i then 1 else 0) ∧
    (∀ i < b.length,
      ((simplexTableau A b c).getD i []).getD (A.length + b.length + 1) 0 =
        c.getD i 0) ∧
    (∀ j < A.length,
      ((simplexTableau A b c).getD b.length []).getD j 0 = -(A.getD j 0)) ∧
    ((simplexTableau A b c).getD b.length []).getD (A.length + b.length) 0 = 1 := by
  have hA : (A.map (fun a => -a)).length = A.length := List.length_map ..
  have hbl : (extendSlack b).length = b.length := extendSlack_length b
  have hcoeffs : ∀ i < b.length,
      ((extendSlack b).getD i []).take
        (((extendSlack b).getD i []).length - (extendSlack b).length) =
      b.getD i [] := by
    intro i hi
    have hlen : (b.getD i []).length = A.length := hb _ (getD_row_mem b i hi)
    rw [extendSlack_getD b i hi, hbl, List.length_append, List.length_map,
      List.length_range, Nat.add_sub_cancel, List.take_left]
  have hobj : ∀ j, ((simplexTableau A b c).getD b.length []).getD j 0 =
      if A.length + b.length = j then 1
      else if j < A.length ∧ j < A.length + b.length + 2 then
        (A.map (fun a => -a)).getD j 0
      else 0 := by
    intro j
    have h := construct_getD_obj (A.map (fun a => -a)) (extendSlack b) c j
    rw [hA, hbl] at h
    exact h
  refine ⟨?_, ?_, ?_, ?_, ?_, ?_⟩
  · rw [simplexTableau, construct_length, hbl]
  · intro i hi
    rw [simplexTableau, construct_row_length _ _ _ i (by rw [hbl]; exact hi),
      hA, hbl]
  · intro i hi q hq
    have h := construct_getD_con (A.map (fun a => -a)) (extendSlack b) c i
      (by rw [hbl]; exact hi) (A.length + q)
    rw [hcoeffs i hi, hA, hbl] at h
    have hlen : (b.getD i []).length = A.length := hb _ (getD_row_mem b i hi)
    rw [simplexTableau, h, hlen]
    rw [if_neg (fun hcc => absurd hcc.1 (by omega : ¬ A.length + q < A.length))]
    rw [if_neg (by omega : ¬ A.length + b.length + 1 = A.length + q)]
    by_cases hqi : q = i
    · rw [if_pos ⟨by omega, by omega⟩, if_pos hqi]
    · rw [if_neg (fun hcc => hqi (by omega)), if_neg hqi]
  · intro i hi
    have h := construct_getD_con (A.map (fun a => -a)) (extendSlack b) c i
      (by rw [hbl]; exact hi) (A.length + b.length + 1)
    rw [hcoeffs i hi, hA, hbl] at h
    have hlen : (b.getD i []).length = A.length := hb _ (getD_row_mem b i hi)
    rw [simplexTableau, h, hlen]
    rw [if_neg (fun hcc =>
      absurd hcc.1 (by omega : ¬ A.length + b.length + 1 < A.length))]
    rw [if_pos rfl]
  · intro j hj
    rw [hobj j]
    rw [if_neg (by omega : ¬ A.length + b.length = j)]
    rw [if_pos ⟨hj, by omega⟩]
    exact getD_map_neg A j hj
  · rw [hobj (A.length + b.length), if_pos rfl]

theorem C7_tableau_builder_shape_witness :
    (simplexTableau [3, 2] [[1, 1], [1, 3]] [4, 6]).length = 3 ∧
    (((simplexTableau [3, 2] [[1, 1], [1, 3]] [4, 6]).getD 0 []).getD (2 + 1) 0 =
      if 1 = 0 then 1 else 0) ∧
    ((simplexTableau [3, 2] [[1, 1], [1, 3]] [4, 6]).getD 0 []).getD (2 + 2 + 1) 0 =
      [(4 : ℚ), 6].getD 0 0 ∧
    ((simplexTableau [3, 2] [[1, 1], [1, 3]] [4, 6]).getD 2 []).getD 0 0 =
      -([(3 : ℚ), 2].getD 0 0) ∧
    ((simplexTableau [3, 2] [[1, 1], [1, 3]] [4, 6]).getD 2 []).getD (2 + 2) 0 = 1 := by
  have h := C7_tableau_builder_shape [3, 2] [[1, 1], [1, 3]] [4, 6]
    (by decide) (by decide)
  exact ⟨h.1, h.2.2.1 0 (by decide) 1 (by decide), h.2.2.2.1 0 (by decide),
    h.2.2.2.2.1 0 (by decide), h.2.2.2.2.2⟩

end SimplexPy
